import Mathlib

/-!
Verification of the temporal version-resolution core of the `cladetime`
package (files `cladetime/cladetime.py`, `cladetime/sequence.py`,
`cladetime/tree.py`, `cladetime/util/reference.py`).

Python `datetime` values (all UTC, microseconds dropped) are embedded as
six-field records ordered lexicographically; dictionaries as association
lists; fallible functions return `Except`.
-/

set_option autoImplicit false

namespace Cladetime

instance exceptDecEq {ε α : Type} [DecidableEq ε] [DecidableEq α] :
    DecidableEq (Except ε α) := fun x y =>
  match x, y with
  | .ok a, .ok b =>
    if h : a = b then isTrue (by rw [h]) else isFalse (by simp [h])
  | .error a, .error b =>
    if h : a = b then isTrue (by rw [h]) else isFalse (by simp [h])
  | .ok _, .error _ => isFalse (by simp)
  | .error _, .ok _ => isFalse (by simp)

/-- A UTC `datetime.datetime` with sub-second precision dropped
(`_get_date` always ends with `replace(microsecond=0)`). -/
structure PyDateTime where
  year : Nat
  month : Nat
  day : Nat
  hour : Nat
  minute : Nat
  second : Nat
deriving DecidableEq, Repr

/-- Python `<` on two UTC datetimes: lexicographic field comparison. -/
def dtLt (a b : PyDateTime) : Bool :=
  if a.year ≠ b.year then decide (a.year < b.year)
  else if a.month ≠ b.month then decide (a.month < b.month)
  else if a.day ≠ b.day then decide (a.day < b.day)
  else if a.hour ≠ b.hour then decide (a.hour < b.hour)
  else if a.minute ≠ b.minute then decide (a.minute < b.minute)
  else decide (a.second < b.second)

/-- Python `<=` on two UTC datetimes. -/
def dtLe (a b : PyDateTime) : Bool := dtLt a b || decide (a = b)

theorem dtLt_iff (a b : PyDateTime) : dtLt a b = true ↔
    a.year < b.year ∨ (a.year = b.year ∧
      (a.month < b.month ∨ (a.month = b.month ∧
        (a.day < b.day ∨ (a.day = b.day ∧
          (a.hour < b.hour ∨ (a.hour = b.hour ∧
            (a.minute < b.minute ∨ (a.minute = b.minute ∧
              a.second < b.second))))))))) := by
  simp only [dtLt]
  split_ifs <;> simp_all

theorem dtEq_iff (a b : PyDateTime) : a = b ↔
    a.year = b.year ∧ a.month = b.month ∧ a.day = b.day ∧
      a.hour = b.hour ∧ a.minute = b.minute ∧ a.second = b.second := by
  cases a; cases b; simp [PyDateTime.mk.injEq]

theorem dtLe_iff (a b : PyDateTime) : dtLe a b = true ↔
    (dtLt a b = true ∨ a = b) := by
  simp [dtLe]

theorem dtLe_refl (a : PyDateTime) : dtLe a a = true := by
  simp [dtLe]

theorem dtLt_le {a b : PyDateTime} (h : dtLt a b = true) : dtLe a b = true := by
  simp [dtLe, h]

theorem dtLt_trans {a b c : PyDateTime} (h1 : dtLt a b = true)
    (h2 : dtLt b c = true) : dtLt a c = true := by
  rw [dtLt_iff] at h1 h2 ⊢
  omega

theorem dtLe_trans {a b c : PyDateTime} (h1 : dtLe a b = true)
    (h2 : dtLe b c = true) : dtLe a c = true := by
  rw [dtLe_iff] at h1 h2 ⊢
  rcases h1 with h1 | rfl
  · rcases h2 with h2 | rfl
    · exact Or.inl (dtLt_trans h1 h2)
    · exact Or.inl h1
  · exact h2

theorem dtLt_false_le {a b : PyDateTime} (h : dtLt a b = false) :
    dtLe b a = true := by
  rw [dtLe_iff]
  by_cases he : b = a
  · exact Or.inr he
  · left
    have h' : ¬ dtLt a b = true := by simp [h]
    rw [dtLt_iff] at h' ⊢
    rw [dtEq_iff] at he
    omega

theorem dtLt_le_trans {a b c : PyDateTime} (h1 : dtLt a b = true)
    (h2 : dtLe b c = true) : dtLe a c = true :=
  dtLe_trans (dtLt_le h1) h2

/-- Zero-pad a number to two digits, as `strftime` does. -/
def pad2 (n : Nat) : String := if n < 10 then "0" ++ toString n else toString n

/-- Zero-pad a number to four digits, as `strftime("%Y")` does. -/
def pad4 (n : Nat) : String :=
  if n < 10 then "000" ++ toString n
  else if n < 100 then "00" ++ toString n
  else if n < 1000 then "0" ++ toString n
  else toString n

/-- `strftime("%Y-%m-%d")` on a UTC datetime. -/
def fmtYmd (t : PyDateTime) : String :=
  pad4 t.year ++ "-" ++ pad2 t.month ++ "-" ++ pad2 t.day

/-- `str()` of a UTC `datetime` (as interpolated into error messages). -/
def dtStr (t : PyDateTime) : String :=
  fmtYmd t ++ " " ++ pad2 t.hour ++ ":" ++ pad2 t.minute ++ ":" ++
    pad2 t.second ++ "+00:00"

/-- Gregorian leap-year test used by `datetime`. -/
def isLeapYear (y : Nat) : Bool :=
  (y % 4 = 0 && y % 100 ≠ 0) || y % 400 = 0

/-- Number of days in a month, as `datetime` validates. -/
def daysInMonth (y m : Nat) : Nat :=
  if m = 2 then (if isLeapYear y then 29 else 28)
  else if m = 4 || m = 6 || m = 9 || m = 11 then 30
  else 31

/-- ASCII digit test (what `strptime` matches with its digit patterns). -/
def isDigitChar (c : Char) : Bool :=
  decide (48 ≤ c.toNat) && decide (c.toNat ≤ 57)

/-- Value of an ASCII digit. -/
def digitVal (c : Char) : Nat := c.toNat - 48

/-- Decimal value of a digit string. -/
def digitsToNat (cs : List Char) : Nat :=
  cs.foldl (fun n c => n * 10 + digitVal c) 0

/-- Split a character list at every hyphen (the field separator of the
`"%Y-%m-%d"` format). -/
def splitOnDash : List Char → List (List Char)
  | [] => [[]]
  | c :: rest =>
    let r := splitOnDash rest
    if c = '-' then [] :: r
    else
      match r with
      | [] => [[c]]
      | g :: gs => (c :: g) :: gs

/-- `datetime.strptime(s, "%Y-%m-%d")`: a four-digit year, a one- or
two-digit month in 1..12 and a one- or two-digit day valid for that
month, separated by hyphens, with nothing left over; any other input
raises `ValueError`. -/
def strptimeYmd (s : String) : Option (Nat × Nat × Nat) :=
  match splitOnDash s.data with
  | [ys, ms, ds] =>
    if ys.all isDigitChar && ms.all isDigitChar && ds.all isDigitChar &&
        ys.length = 4 && 1 ≤ ms.length && ms.length ≤ 2 &&
        1 ≤ ds.length && ds.length ≤ 2 then
      let y := digitsToNat ys
      let m := digitsToNat ms
      let d := digitsToNat ds
      if 1 ≤ m && m ≤ 12 && 1 ≤ d && d ≤ daysInMonth y m then
        some (y, m, d)
      else none
    else none
  | _ => none

/-- The argument accepted by `_get_date` / the `CladeTime` date setters:
`None`, a `datetime`, or a string. -/
inductive DateParam where
  | none
  | dt (t : PyDateTime)
  | str (s : String)
deriving DecidableEq, Repr

/-- `cladetime.util.reference._get_date`: `None` becomes the current UTC
time, a `datetime` keeps its wall-clock fields and is labeled UTC, and a
string is parsed with `strptime("%Y-%m-%d")` (midnight); parse failure
raises `ValueError`.  Microsecond truncation is represented by
`PyDateTime` having no sub-second field. -/
def get_date (utcNow : PyDateTime) : DateParam → Except String PyDateTime
  | .none => .ok utcNow
  | .dt t => .ok t
  | .str s =>
    match strptimeYmd s with
    | some (y, m, d) => .ok ⟨y, m, d, 0, 0, 0⟩
    | Option.none => .error ("Invalid date format: " ++ s)

/-- One entry of an S3 `list_object_versions` listing. -/
structure ObjVersion where
  versionId : String
  lastModified : PyDateTime
deriving DecidableEq, Repr

/-- The selection loop of `_get_s3_object_url`: scan the listed versions,
keeping the first-seen version among those with the strictly greatest
`LastModified` that is `<=` the cutoff date. -/
def selectVersion (date : PyDateTime) :
    List ObjVersion → Option ObjVersion → Option ObjVersion
  | [], acc => acc
  | v :: rest, Option.none =>
    if dtLe v.lastModified date then selectVersion date rest (some v)
    else selectVersion date rest Option.none
  | v :: rest, some s =>
    if dtLe v.lastModified date then
      if dtLt s.lastModified v.lastModified then
        selectVersion date rest (some v)
      else selectVersion date rest (some s)
    else selectVersion date rest (some s)

/-- `cladetime.util.reference._get_s3_object_url`, with the paginated
version listing supplied as the flat list of versions the nested loops
iterate over.  Returns `(version_id, version_url)` or raises
`ValueError` when no listed version is at or before the date. -/
def get_s3_object_url (bucket_name object_key : String) (date : PyDateTime)
    (versions : List ObjVersion) : Except String (String × String) :=
  match selectVersion date versions Option.none with
  | Option.none =>
    .error ("No version of " ++ object_key ++ " found before " ++ dtStr date)
  | some v =>
    .ok (v.versionId,
      "https://" ++ bucket_name ++ ".s3.amazonaws.com/" ++ object_key ++
        "?versionId=" ++ v.versionId)

theorem selectVersion_eq_none_iff (date : PyDateTime) (l : List ObjVersion)
    (acc : Option ObjVersion) :
    selectVersion date l acc = Option.none ↔
      acc = Option.none ∧ ∀ v ∈ l, dtLe v.lastModified date = false := by
  induction l generalizing acc with
  | nil => simp [selectVersion]
  | cons v rest ih =>
    cases acc with
    | none =>
      simp only [selectVersion]
      by_cases hv : dtLe v.lastModified date = true
      · rw [if_pos hv, ih]
        simp [hv]
      · rw [if_neg hv, ih]
        simp only [Bool.not_eq_true] at hv
        simp [hv]
    | some s =>
      simp only [selectVersion]
      by_cases hv : dtLe v.lastModified date = true
      · rw [if_pos hv]
        by_cases hlt : dtLt s.lastModified v.lastModified = true
        · rw [if_pos hlt, ih]
          simp [hv]
        · rw [if_neg hlt, ih]
          simp [hv]
      · rw [if_neg hv, ih]
        simp only [Bool.not_eq_true] at hv
        simp [hv]

theorem selectVersion_spec (date : PyDateTime) (l : List ObjVersion) :
    ∀ (acc : Option ObjVersion),
      (∀ a, acc = some a → dtLe a.lastModified date = true) →
      ∀ s, selectVersion date l acc = some s →
        (s ∈ l ∨ acc = some s) ∧ dtLe s.lastModified date = true ∧
          (∀ w ∈ l, dtLe w.lastModified date = true →
            dtLe w.lastModified s.lastModified = true) ∧
          (∀ a, acc = some a → dtLe a.lastModified s.lastModified = true) := by
  induction l with
  | nil =>
    intro acc hacc s h
    simp only [selectVersion] at h
    subst h
    refine ⟨Or.inr rfl, hacc s rfl, ?_, ?_⟩
    · intro w hw
      simp at hw
    · intro a ha
      cases ha
      exact dtLe_refl _
  | cons v rest ih =>
    intro acc hacc s h
    cases acc with
    | none =>
      simp only [selectVersion] at h
      by_cases hv : dtLe v.lastModified date = true
      · rw [if_pos hv] at h
        have spec := ih (some v) (by intro a ha; cases ha; exact hv) s h
        refine ⟨?_, spec.2.1, ?_, ?_⟩
        · rcases spec.1 with hmem | hs
          · exact Or.inl (List.mem_cons_of_mem _ hmem)
          · cases hs
            exact Or.inl (List.mem_cons_self _ _)
        · intro w hw hwe
          rcases List.mem_cons.mp hw with rfl | hw'
          · exact spec.2.2.2 w rfl
          · exact spec.2.2.1 w hw' hwe
        · intro a ha
          cases ha
      · rw [if_neg hv] at h
        have spec := ih Option.none (by intro a ha; cases ha) s h
        simp only [Bool.not_eq_true] at hv
        refine ⟨?_, spec.2.1, ?_, ?_⟩
        · rcases spec.1 with hmem | hs
          · exact Or.inl (List.mem_cons_of_mem _ hmem)
          · cases hs
        · intro w hw hwe
          rcases List.mem_cons.mp hw with rfl | hw'
          · rw [hwe] at hv
            cases hv
          · exact spec.2.2.1 w hw' hwe
        · intro a ha
          cases ha
    | some s0 =>
      have hs0 : dtLe s0.lastModified date = true := hacc s0 rfl
      simp only [selectVersion] at h
      by_cases hv : dtLe v.lastModified date = true
      · rw [if_pos hv] at h
        by_cases hlt : dtLt s0.lastModified v.lastModified = true
        · rw [if_pos hlt] at h
          have spec := ih (some v) (by intro a ha; cases ha; exact hv) s h
          have hvs : dtLe v.lastModified s.lastModified = true :=
            spec.2.2.2 v rfl
          refine ⟨?_, spec.2.1, ?_, ?_⟩
          · rcases spec.1 with hmem | hs
            · exact Or.inl (List.mem_cons_of_mem _ hmem)
            · cases hs
              exact Or.inl (List.mem_cons_self _ _)
          · intro w hw hwe
            rcases List.mem_cons.mp hw with rfl | hw'
            · exact hvs
            · exact spec.2.2.1 w hw' hwe
          · intro a ha
            cases ha
            exact dtLt_le_trans hlt hvs
        · rw [if_neg hlt] at h
          have spec := ih (some s0) (by intro a ha; cases ha; exact hs0) s h
          have hs0s : dtLe s0.lastModified s.lastModified = true :=
            spec.2.2.2 s0 rfl
          have hvle : dtLe v.lastModified s0.lastModified = true :=
            dtLt_false_le (by simpa using hlt)
          refine ⟨?_, spec.2.1, ?_, spec.2.2.2⟩
          · rcases spec.1 with hmem | hs
            · exact Or.inl (List.mem_cons_of_mem _ hmem)
            · exact Or.inr hs
          · intro w hw hwe
            rcases List.mem_cons.mp hw with rfl | hw'
            · exact dtLe_trans hvle hs0s
            · exact spec.2.2.1 w hw' hwe
      · rw [if_neg hv] at h
        have spec := ih (some s0) hacc s h
        simp only [Bool.not_eq_true] at hv
        refine ⟨?_, spec.2.1, ?_, spec.2.2.2⟩
        · rcases spec.1 with hmem | hs
          · exact Or.inl (List.mem_cons_of_mem _ hmem)
          · exact Or.inr hs
        · intro w hw hwe
          rcases List.mem_cons.mp hw with rfl | hw'
          · rw [hwe] at hv
            cases hv
          · exact spec.2.2.1 w hw' hwe

/-- C1: For every bucket, object key and as_of cutoff, `_get_s3_object_url`
selects, among all listed versions with `LastModified <= as_of`, one whose
`LastModified` is the maximum, and returns its version ID inside the
versioned URL; when no listed version is at or before the cutoff it raises
the "No version of ... found before ..." `ValueError` instead. -/
theorem s3_version_resolution (bucket_name object_key : String)
    (date : PyDateTime) (versions : List ObjVersion) :
    ((∃ v ∈ versions, dtLe v.lastModified date = true) →
      ∃ v ∈ versions, dtLe v.lastModified date = true ∧
        (∀ w ∈ versions, dtLe w.lastModified date = true →
          dtLe w.lastModified v.lastModified = true) ∧
        get_s3_object_url bucket_name object_key date versions =
          .ok (v.versionId,
            "https://" ++ bucket_name ++ ".s3.amazonaws.com/" ++ object_key ++
              "?versionId=" ++ v.versionId)) ∧
    ((∀ v ∈ versions, dtLe v.lastModified date = false) →
      get_s3_object_url bucket_name object_key date versions =
        .error ("No version of " ++ object_key ++ " found before " ++
          dtStr date)) := by
  constructor
  · rintro ⟨v0, hv0mem, hv0⟩
    cases hsel : selectVersion date versions Option.none with
    | none =>
      have := (selectVersion_eq_none_iff date versions Option.none).mp hsel
      rw [this.2 v0 hv0mem] at hv0
      cases hv0
    | some s =>
      have spec := selectVersion_spec date versions Option.none
        (by intro a ha; cases ha) s hsel
      have hmem : s ∈ versions := by
        rcases spec.1 with hmem | hs
        · exact hmem
        · cases hs
      refine ⟨s, hmem, spec.2.1, spec.2.2.1, ?_⟩
      simp [get_s3_object_url, hsel]
  · intro hnone
    have hsel : selectVersion date versions Option.none = Option.none :=
      (selectVersion_eq_none_iff date versions Option.none).mpr ⟨rfl, hnone⟩
    simp [get_s3_object_url, hsel]

/-- Witness for C1: a concrete three-version listing where the 2025-03-01
version is the newest one at or before the 2025-10-15 cutoff. -/
theorem s3_version_resolution_witness :
    (∃ v ∈ [ObjVersion.mk "v1" ⟨2025, 1, 1, 8, 0, 0⟩,
            ObjVersion.mk "v2" ⟨2025, 3, 1, 9, 30, 0⟩,
            ObjVersion.mk "v3" ⟨2025, 12, 1, 0, 0, 0⟩],
        dtLe v.lastModified ⟨2025, 10, 15, 23, 59, 59⟩ = true) ∧
    (∃ v ∈ [ObjVersion.mk "v1" ⟨2025, 1, 1, 8, 0, 0⟩,
            ObjVersion.mk "v2" ⟨2025, 3, 1, 9, 30, 0⟩,
            ObjVersion.mk "v3" ⟨2025, 12, 1, 0, 0, 0⟩],
        dtLe v.lastModified ⟨2025, 10, 15, 23, 59, 59⟩ = true ∧
        (∀ w ∈ [ObjVersion.mk "v1" ⟨2025, 1, 1, 8, 0, 0⟩,
                ObjVersion.mk "v2" ⟨2025, 3, 1, 9, 30, 0⟩,
                ObjVersion.mk "v3" ⟨2025, 12, 1, 0, 0, 0⟩],
          dtLe w.lastModified ⟨2025, 10, 15, 23, 59, 59⟩ = true →
          dtLe w.lastModified v.lastModified = true) ∧
        get_s3_object_url "nextstrain-data" "files/ncov/open/metadata.tsv.zst"
          ⟨2025, 10, 15, 23, 59, 59⟩
          [ObjVersion.mk "v1" ⟨2025, 1, 1, 8, 0, 0⟩,
           ObjVersion.mk "v2" ⟨2025, 3, 1, 9, 30, 0⟩,
           ObjVersion.mk "v3" ⟨2025, 12, 1, 0, 0, 0⟩] =
          .ok (v.versionId,
            "https://" ++ "nextstrain-data" ++ ".s3.amazonaws.com/" ++
              "files/ncov/open/metadata.tsv.zst" ++ "?versionId=" ++
              v.versionId)) :=
  ⟨by decide,
    (s3_version_resolution "nextstrain-data" "files/ncov/open/metadata.tsv.zst"
      ⟨2025, 10, 15, 23, 59, 59⟩
      [ObjVersion.mk "v1" ⟨2025, 1, 1, 8, 0, 0⟩,
       ObjVersion.mk "v2" ⟨2025, 3, 1, 9, 30, 0⟩,
       ObjVersion.mk "v3" ⟨2025, 12, 1, 0, 0, 0⟩]).1 (by decide)⟩

/-! `cladetime.util.config.Config` constants consulted by `CladeTime`. -/

def nextstrain_min_seq_date : PyDateTime := ⟨2025, 9, 29, 0, 0, 0⟩

def nextstrain_min_ncov_metadata_date : PyDateTime := ⟨2024, 10, 9, 0, 0, 0⟩

def nextstrain_ncov_bucket : String := "nextstrain-data"

def nextstrain_ncov_metadata_key : String := "files/ncov/open/metadata_version.json"

def nextstrain_genome_metadata_key : String := "files/ncov/open/metadata.tsv.zst"

def nextstrain_genome_sequence_key : String := "files/ncov/open/sequences.fasta.zst"

/-- The typed exceptions a `CladeTime` construction can raise.
`dataUnavailable` stands for `CladeTimeDataUnavailableError`; note that
`cladetime.py` imports and raises that class although the shipped
`cladetime/exceptions.py` does not declare it, so the constructor is
modelled from the spec here in that one respect: a hard, typed
data-unavailable error distinct from `ValueError`. -/
inductive CTError where
  | dataUnavailable (msg : String)
  | valueError (msg : String)
deriving DecidableEq, Repr

/-- The `CladeTimeDataUnavailableError` message raised by the
`sequence_as_of` setter, as built by its f-string. -/
def seqUnavailableMsg (requested : PyDateTime) : String :=
  "\nSequence data is not available before " ++
    fmtYmd nextstrain_min_seq_date ++
    ". Nextstrain S3 only retains up to 90 days of historical versions. " ++
    "Requested date: " ++ fmtYmd requested ++
    ". \nNote: This limitation is due to Nextstrain\x27s data retention " ++
    "policy, which may change over time. See GitHub issue #185 for more details."

/-- The `CladeTimeDataUnavailableError` message raised by the
`tree_as_of` setter, as built by its f-string. -/
def treeUnavailableMsg (requested : PyDateTime) : String :=
  "\nReference tree metadata is not available before " ++
    fmtYmd nextstrain_min_ncov_metadata_date ++
    ". Historical metadata is provided by variant-nowcast-hub archives " ++
    "starting from this date. Requested date: " ++ fmtYmd requested ++
    ". \nNote: This limitation is due to hub archive availability, which " ++
    "may expand over time. See GitHub issue #185 for more details."

/-- The `CladeTime.sequence_as_of` setter: parse the supplied date, falling
back to the current UTC time (with a `CladeTimeDateWarning`) when parsing
raises `ValueError`; raise `CladeTimeDataUnavailableError` when the
normalized date is before the sequence availability floor; clamp future
dates to now with a warning.  The returned flag records whether a
`CladeTimeDateWarning` was emitted. -/
def setSequenceAsOf (utcNow : PyDateTime) (date : DateParam) :
    Except CTError (PyDateTime × Bool) :=
  let first : PyDateTime × Bool :=
    match get_date utcNow date with
    | .ok d => (d, false)
    | .error _ => (utcNow, true)
  if dtLt first.1 nextstrain_min_seq_date then
    .error (.dataUnavailable (seqUnavailableMsg first.1))
  else if dtLt utcNow first.1 then .ok (utcNow, true)
  else .ok first

/-- The `CladeTime.tree_as_of` setter: `None` defaults to the stored
`sequence_as_of`; an unparseable date falls back to the stored
`sequence_as_of` with a `CladeTimeDateWarning`; dates before the tree
metadata availability floor raise `CladeTimeDataUnavailableError`; future
dates are clamped to now with a warning. -/
def setTreeAsOf (utcNow sequenceAsOf : PyDateTime) (date : DateParam) :
    Except CTError (PyDateTime × Bool) :=
  let first : PyDateTime × Bool :=
    match date with
    | .none => (sequenceAsOf, false)
    | p =>
      match get_date utcNow p with
      | .ok d => (d, false)
      | .error _ => (sequenceAsOf, true)
  if dtLt first.1 nextstrain_min_ncov_metadata_date then
    .error (.dataUnavailable (treeUnavailableMsg first.1))
  else if dtLt utcNow first.1 then .ok (utcNow, true)
  else .ok first

/-- The attributes a successful `CladeTime.__init__` stores.
`url_ncov_metadata = none` models Python `None` (date before the metadata
availability floor); `some ""` is the explicit empty-string sentinel that
triggers the archive fallback later. -/
structure CladeTimeState where
  sequence_as_of : PyDateTime
  tree_as_of : PyDateTime
  url_sequence : String
  url_sequence_metadata : String
  url_ncov_metadata : Option String
  seqWarning : Bool
  treeWarning : Bool
deriving DecidableEq, Repr

/-- `CladeTime.__init__`: run the two date setters, resolve the sequence and
sequence-metadata URLs via `_get_s3_object_url` (their `ValueError`
propagates), and, when `sequence_as_of` is at or after the metadata
availability date, resolve the ncov pipeline-metadata URL, substituting the
empty-string sentinel when S3 raises `ValueError` there.  `listings` maps an
object key to the version listing the store returns for it. -/
def cladeTimeInit (listings : String → List ObjVersion) (utcNow : PyDateTime)
    (sequence_as_of tree_as_of : DateParam) : Except CTError CladeTimeState :=
  match setSequenceAsOf utcNow sequence_as_of with
  | .error e => .error e
  | .ok (seqDate, seqWarn) =>
    match setTreeAsOf utcNow seqDate tree_as_of with
    | .error e => .error e
    | .ok (treeDate, treeWarn) =>
      match get_s3_object_url nextstrain_ncov_bucket
          nextstrain_genome_sequence_key seqDate
          (listings nextstrain_genome_sequence_key) with
      | .error m => .error (.valueError m)
      | .ok (_, urlSeq) =>
        match get_s3_object_url nextstrain_ncov_bucket
            nextstrain_genome_metadata_key seqDate
            (listings nextstrain_genome_metadata_key) with
        | .error m => .error (.valueError m)
        | .ok (_, urlMeta) =>
          let urlNcov : Option String :=
            if dtLe nextstrain_min_ncov_metadata_date seqDate then
              match get_s3_object_url nextstrain_ncov_bucket
                  nextstrain_ncov_metadata_key seqDate
                  (listings nextstrain_ncov_metadata_key) with
              | .ok (_, u) => some u
              | .error _ => some ""
            else Option.none
          .ok ⟨seqDate, treeDate, urlSeq, urlMeta, urlNcov, seqWarn, treeWarn⟩

theorem dtLt_irrefl (a : PyDateTime) : dtLt a a = false := by
  simp [dtLt]

/-- The normalized value of a supplied sequence date before the floor and
future checks run: the parse result, or the current time when parsing
fails (validation steps (1)-(2) of the setter). -/
def normSeqOf (utcNow : PyDateTime) (p : DateParam) : PyDateTime :=
  match get_date utcNow p with
  | .ok d => d
  | .error _ => utcNow

/-- The sequence date a successful setter call stores: the normalized
value, clamped to now when it lies in the future. -/
def storedSeqOf (utcNow : PyDateTime) (p : DateParam) : PyDateTime :=
  if dtLt utcNow (normSeqOf utcNow p) then utcNow else normSeqOf utcNow p

/-- The normalized value of a supplied tree date before the floor and
future checks run: the stored sequence date when the parameter is `None`
or unparseable, otherwise the parse result. -/
def normTreeOf (utcNow storedSeq : PyDateTime) : DateParam → PyDateTime
  | .none => storedSeq
  | p =>
    match get_date utcNow p with
    | .ok d => d
    | .error _ => storedSeq

theorem setSequenceAsOf_err (utcNow : PyDateTime) (p : DateParam)
    (h : dtLt (normSeqOf utcNow p) nextstrain_min_seq_date = true) :
    setSequenceAsOf utcNow p =
      .error (.dataUnavailable (seqUnavailableMsg (normSeqOf utcNow p))) := by
  cases hg : get_date utcNow p with
  | ok d => simp_all [setSequenceAsOf, normSeqOf, hg]
  | error e => simp_all [setSequenceAsOf, normSeqOf, hg]

theorem setSequenceAsOf_ok (utcNow : PyDateTime) (p : DateParam)
    (h : dtLt (normSeqOf utcNow p) nextstrain_min_seq_date = false) :
    ∃ w, setSequenceAsOf utcNow p = .ok (storedSeqOf utcNow p, w) := by
  cases hg : get_date utcNow p with
  | ok d =>
    by_cases hf : dtLt utcNow d = true
    · exact ⟨true, by simp_all [setSequenceAsOf, normSeqOf, storedSeqOf, hg, hf]⟩
    · exact ⟨false, by simp_all [setSequenceAsOf, normSeqOf, storedSeqOf, hg, hf]⟩
  | error e =>
    refine ⟨true, ?_⟩
    have hnow : dtLt utcNow utcNow = false := dtLt_irrefl utcNow
    simp_all [setSequenceAsOf, normSeqOf, storedSeqOf, hg, hnow]

theorem setTreeAsOf_err (utcNow storedSeq : PyDateTime) (p : DateParam)
    (h : dtLt (normTreeOf utcNow storedSeq p) nextstrain_min_ncov_metadata_date
        = true) :
    setTreeAsOf utcNow storedSeq p =
      .error (.dataUnavailable
        (treeUnavailableMsg (normTreeOf utcNow storedSeq p))) := by
  cases p with
  | none => simp_all [setTreeAsOf, normTreeOf]
  | dt t => simp_all [setTreeAsOf, normTreeOf, get_date]
  | str s =>
    cases hg : get_date utcNow (.str s) with
    | ok d => simp_all [setTreeAsOf, normTreeOf, hg]
    | error e => simp_all [setTreeAsOf, normTreeOf, hg]

theorem get_s3_object_url_ok_of_eligible (b k : String) (date : PyDateTime)
    (versions : List ObjVersion)
    (h : ∃ v ∈ versions, dtLe v.lastModified date = true) :
    ∃ vid url, get_s3_object_url b k date versions = .ok (vid, url) := by
  cases hsel : selectVersion date versions Option.none with
  | none =>
    exfalso
    obtain ⟨v, hv, he⟩ := h
    have := (selectVersion_eq_none_iff date versions Option.none).mp hsel
    rw [this.2 v hv] at he
    cases he
  | some s =>
    exact ⟨s.versionId,
      "https://" ++ b ++ ".s3.amazonaws.com/" ++ k ++ "?versionId=" ++
        s.versionId,
      by simp [get_s3_object_url, hsel]⟩

/-- C4: a CladeTime construction raises the typed
`CladeTimeDataUnavailableError` whenever the normalized sequence date is
before the sequence availability floor or, the sequence date passing, the
normalized tree date is before the tree metadata availability floor; no
such construction succeeds, and both error messages name the floor date. -/
theorem pre_floor_construction_raises
    (listings : String → List ObjVersion) (utcNow : PyDateTime)
    (seqP treeP : DateParam) :
    (dtLt (normSeqOf utcNow seqP) nextstrain_min_seq_date = true →
      cladeTimeInit listings utcNow seqP treeP =
        .error (.dataUnavailable (seqUnavailableMsg (normSeqOf utcNow seqP)))) ∧
    (dtLt (normSeqOf utcNow seqP) nextstrain_min_seq_date = false →
      dtLt (normTreeOf utcNow (storedSeqOf utcNow seqP) treeP)
          nextstrain_min_ncov_metadata_date = true →
      cladeTimeInit listings utcNow seqP treeP =
        .error (.dataUnavailable (treeUnavailableMsg
          (normTreeOf utcNow (storedSeqOf utcNow seqP) treeP)))) ∧
    (∀ t, ∃ pre post,
      seqUnavailableMsg t = pre ++ fmtYmd nextstrain_min_seq_date ++ post) ∧
    (∀ t, ∃ pre post,
      treeUnavailableMsg t =
        pre ++ fmtYmd nextstrain_min_ncov_metadata_date ++ post) := by
  refine ⟨?_, ?_, ?_, ?_⟩
  · intro h
    rw [cladeTimeInit, setSequenceAsOf_err utcNow seqP h]
  · intro h1 h2
    obtain ⟨w, hw⟩ := setSequenceAsOf_ok utcNow seqP h1
    simp only [cladeTimeInit, hw,
      setTreeAsOf_err utcNow (storedSeqOf utcNow seqP) treeP h2]
  · intro t
    exact ⟨"\nSequence data is not available before ",
      ". Nextstrain S3 only retains up to 90 days of historical versions. " ++
        "Requested date: " ++ fmtYmd t ++
        ". \nNote: This limitation is due to Nextstrain\x27s data retention " ++
        "policy, which may change over time. See GitHub issue #185 for more details.",
      by simp [seqUnavailableMsg, String.append_assoc]⟩
  · intro t
    exact ⟨"\nReference tree metadata is not available before ",
      ". Historical metadata is provided by variant-nowcast-hub archives " ++
        "starting from this date. Requested date: " ++ fmtYmd t ++
        ". \nNote: This limitation is due to hub archive availability, which " ++
        "may expand over time. See GitHub issue #185 for more details.",
      by simp [treeUnavailableMsg, String.append_assoc]⟩

/-- Witness for C4: requesting sequence data as of 2024-10-30 (before the
2025-09-29 retention floor) makes construction fail with the typed error. -/
theorem pre_floor_construction_raises_witness :
    (dtLt (normSeqOf ⟨2025, 10, 20, 12, 0, 0⟩ (.str "2024-10-30"))
        nextstrain_min_seq_date = true) ∧
    cladeTimeInit (fun _ => []) ⟨2025, 10, 20, 12, 0, 0⟩
        (.str "2024-10-30") .none =
      .error (.dataUnavailable
        (seqUnavailableMsg
          (normSeqOf ⟨2025, 10, 20, 12, 0, 0⟩ (.str "2024-10-30")))) :=
  ⟨by decide,
    (pre_floor_construction_raises (fun _ => []) ⟨2025, 10, 20, 12, 0, 0⟩
      (.str "2024-10-30") .none).1 (by decide)⟩

/-- C2 (code bug): `_get_date` sends the date-only string "2025-10-15" to
midnight UTC, and the constructed CladeTime stores
2025-10-15T00:00:00Z as `sequence_as_of` — not the documented end-of-day
2025-10-15T23:59:59Z. -/
theorem date_only_string_normalizes_to_midnight :
    get_date ⟨2025, 10, 20, 12, 0, 0⟩ (.str "2025-10-15") =
      .ok ⟨2025, 10, 15, 0, 0, 0⟩ ∧
    (cladeTimeInit (fun _ => [⟨"v1", ⟨2025, 10, 1, 0, 0, 0⟩⟩])
        ⟨2025, 10, 20, 12, 0, 0⟩ (.str "2025-10-15") .none).map
      CladeTimeState.sequence_as_of = .ok ⟨2025, 10, 15, 0, 0, 0⟩ ∧
    (⟨2025, 10, 15, 0, 0, 0⟩ : PyDateTime) ≠ ⟨2025, 10, 15, 23, 59, 59⟩ := by
  refine ⟨by decide, ?_, by decide⟩
  decide

/-- C9: two CladeTime constructions from identical date inputs at the same
instant, observing the same version listings, resolve identical
`url_sequence`, `url_sequence_metadata` and `url_ncov_metadata` values. -/
theorem identical_constructions_resolve_identical_urls
    (l1 l2 : String → List ObjVersion) (n1 n2 : PyDateTime)
    (s1 s2 t1 t2 : DateParam)
    (hl : l1 = l2) (hn : n1 = n2) (hs : s1 = s2) (ht : t1 = t2) :
    (cladeTimeInit l1 n1 s1 t1).map
        (fun ct => (ct.url_sequence, ct.url_sequence_metadata,
          ct.url_ncov_metadata)) =
      (cladeTimeInit l2 n2 s2 t2).map
        (fun ct => (ct.url_sequence, ct.url_sequence_metadata,
          ct.url_ncov_metadata)) := by
  subst hl hn hs ht
  rfl

/-- Witness for C9, on a listing in which two store versions share the
selected modification timestamp. -/
theorem identical_constructions_resolve_identical_urls_witness :
    (cladeTimeInit
        (fun _ => [⟨"vA", ⟨2025, 10, 1, 6, 0, 0⟩⟩, ⟨"vB", ⟨2025, 10, 1, 6, 0, 0⟩⟩])
        ⟨2025, 10, 20, 12, 0, 0⟩ (.str "2025-10-15") .none).map
      (fun ct => (ct.url_sequence, ct.url_sequence_metadata,
        ct.url_ncov_metadata)) =
    (cladeTimeInit
        (fun _ => [⟨"vA", ⟨2025, 10, 1, 6, 0, 0⟩⟩, ⟨"vB", ⟨2025, 10, 1, 6, 0, 0⟩⟩])
        ⟨2025, 10, 20, 12, 0, 0⟩ (.str "2025-10-15") .none).map
      (fun ct => (ct.url_sequence, ct.url_sequence_metadata,
        ct.url_ncov_metadata)) :=
  identical_constructions_resolve_identical_urls _ _ _ _ _ _ _ _
    rfl rfl rfl rfl

/-- Counterexample to C7 as stated: with a valid `sequence_as_of` of
2025-10-15 and an unparseable `tree_as_of`, construction succeeds with a
warning but stores `tree_as_of = sequence_as_of` (midnight 2025-10-15),
not the current time. -/
theorem unparseable_tree_date_falls_back_to_sequence_date :
    get_date ⟨2025, 10, 20, 12, 0, 0⟩ (.str "2022-12-32") =
      .error "Invalid date format: 2022-12-32" ∧
    (cladeTimeInit (fun _ => [⟨"v1", ⟨2025, 10, 1, 0, 0, 0⟩⟩])
        ⟨2025, 10, 20, 12, 0, 0⟩ (.str "2025-10-15") (.str "2022-12-32")).map
      (fun ct => (ct.tree_as_of, ct.treeWarning)) =
      .ok (⟨2025, 10, 15, 0, 0, 0⟩, true) ∧
    (⟨2025, 10, 15, 0, 0, 0⟩ : PyDateTime) ≠ ⟨2025, 10, 20, 12, 0, 0⟩ := by
  refine ⟨by decide, ?_, by decide⟩
  decide

/-- C7 amended: an unparseable `sequence_as_of` falls back to the current
time with a soft warning; an unparseable `tree_as_of` falls back to the
stored `sequence_as_of` (which itself defaults to now) with a soft
warning; construction does not fail provided the fallback dates satisfy
the availability floors and the store has eligible versions. -/
theorem unparseable_dates_fall_back
    (listings : String → List ObjVersion) (utcNow : PyDateTime)
    (seqP treeP : DateParam) :
    ((∃ e, get_date utcNow seqP = .error e) →
      dtLt utcNow nextstrain_min_seq_date = false →
      setSequenceAsOf utcNow seqP = .ok (utcNow, true)) ∧
    (∀ storedSeq, (∃ e, get_date utcNow treeP = .error e) →
      dtLt storedSeq nextstrain_min_ncov_metadata_date = false →
      dtLt utcNow storedSeq = false →
      setTreeAsOf utcNow storedSeq treeP = .ok (storedSeq, true)) ∧
    ((∃ e, get_date utcNow seqP = .error e) →
      (∃ e, get_date utcNow treeP = .error e) →
      dtLt utcNow nextstrain_min_seq_date = false →
      (∃ v ∈ listings nextstrain_genome_sequence_key,
        dtLe v.lastModified utcNow = true) →
      (∃ v ∈ listings nextstrain_genome_metadata_key,
        dtLe v.lastModified utcNow = true) →
      ∃ st, cladeTimeInit listings utcNow seqP treeP = .ok st ∧
        st.sequence_as_of = utcNow ∧ st.tree_as_of = utcNow ∧
        st.seqWarning = true ∧ st.treeWarning = true) := by
  have hmin : dtLt nextstrain_min_ncov_metadata_date nextstrain_min_seq_date
      = true := by decide
  have hA : (∃ e, get_date utcNow seqP = .error e) →
      dtLt utcNow nextstrain_min_seq_date = false →
      setSequenceAsOf utcNow seqP = .ok (utcNow, true) := by
    rintro ⟨e, he⟩ hfloor
    have hnow : dtLt utcNow utcNow = false := dtLt_irrefl utcNow
    simp [setSequenceAsOf, he, hfloor, hnow]
  have hB : ∀ storedSeq, (∃ e, get_date utcNow treeP = .error e) →
      dtLt storedSeq nextstrain_min_ncov_metadata_date = false →
      dtLt utcNow storedSeq = false →
      setTreeAsOf utcNow storedSeq treeP = .ok (storedSeq, true) := by
    rintro storedSeq ⟨e, he⟩ hfloor hclamp
    cases treeP with
    | none => cases he
    | dt t => cases he
    | str s => simp [setTreeAsOf, he, hfloor, hclamp]
  refine ⟨hA, hB, ?_⟩
  rintro h1 h2 hfloor hel1 hel2
  have htreeFloor : dtLt utcNow nextstrain_min_ncov_metadata_date = false := by
    cases hlt : dtLt utcNow nextstrain_min_ncov_metadata_date with
    | false => rfl
    | true =>
      rw [dtLt_trans hlt hmin] at hfloor
      cases hfloor
  have hseq := hA h1 hfloor
  have htree := hB utcNow h2 htreeFloor (dtLt_irrefl utcNow)
  obtain ⟨vid1, url1, hurl1⟩ := get_s3_object_url_ok_of_eligible
    nextstrain_ncov_bucket nextstrain_genome_sequence_key utcNow
    (listings nextstrain_genome_sequence_key) hel1
  obtain ⟨vid2, url2, hurl2⟩ := get_s3_object_url_ok_of_eligible
    nextstrain_ncov_bucket nextstrain_genome_metadata_key utcNow
    (listings nextstrain_genome_metadata_key) hel2
  refine ⟨⟨utcNow, utcNow, url1, url2,
    (if dtLe nextstrain_min_ncov_metadata_date utcNow = true then
      (match get_s3_object_url nextstrain_ncov_bucket
          nextstrain_ncov_metadata_key utcNow
          (listings nextstrain_ncov_metadata_key) with
        | .ok (_, u) => some u
        | .error _ => some "")
    else Option.none), true, true⟩, ?_, rfl, rfl, rfl, rfl⟩
  simp only [cladeTimeInit, hseq, htree, hurl1, hurl2]

/-- Witness for the amended C7: both dates unparseable at a 2025-10-20
instant, with a store holding one eligible version. -/
theorem unparseable_dates_fall_back_witness :
    (∃ st, cladeTimeInit (fun _ => [⟨"v1", ⟨2025, 10, 1, 0, 0, 0⟩⟩])
        ⟨2025, 10, 20, 12, 0, 0⟩ (.str "not-a-date") (.str "2022-12-32") =
          .ok st ∧
      st.sequence_as_of = ⟨2025, 10, 20, 12, 0, 0⟩ ∧
      st.tree_as_of = ⟨2025, 10, 20, 12, 0, 0⟩ ∧
      st.seqWarning = true ∧ st.treeWarning = true) :=
  (unparseable_dates_fall_back (fun _ => [⟨"v1", ⟨2025, 10, 1, 0, 0, 0⟩⟩])
      ⟨2025, 10, 20, 12, 0, 0⟩ (.str "not-a-date") (.str "2022-12-32")).2.2
    ⟨"Invalid date format: not-a-date", by decide⟩
    ⟨"Invalid date format: 2022-12-32", by decide⟩
    (by decide) ⟨⟨"v1", ⟨2025, 10, 1, 0, 0, 0⟩⟩, by decide⟩
    ⟨⟨"v1", ⟨2025, 10, 1, 0, 0, 0⟩⟩, by decide⟩

/-! JSON dictionaries, as fetched by `_get_ncov_metadata`.  Values are
modelled as strings or null, the shapes the ncov pipeline metadata uses. -/

/-- A JSON scalar stored in the metadata dictionary. -/
inductive JVal where
  | s (v : String)
  | null
deriving DecidableEq, Repr

/-- A Python dict with string keys, as an insertion-ordered list. -/
abbrev JDict := List (String × JVal)

/-- `d.get(k)` / `d[k]` lookup. -/
def dget : JDict → String → Option JVal
  | [], _ => Option.none
  | p :: rest, k => if p.1 == k then some p.2 else dget rest k

/-- `d[k] = v` assignment: update the existing entry in place, else append. -/
def dset : JDict → String → JVal → JDict
  | [], k, v => [(k, v)]
  | p :: rest, k, v =>
    if p.1 == k then (k, v) :: rest else p :: dset rest k v

theorem dget_dset_self (d : JDict) (k : String) (v : JVal) :
    dget (dset d k v) k = some v := by
  induction d with
  | nil => simp [dget, dset]
  | cons p rest ih =>
    by_cases h : p.1 == k
    · simp [dset, dget, h]
    · simp [dset, dget, h, ih]

theorem dget_dset_ne (d : JDict) (k k' : String) (v : JVal) (h : ¬ k == k') :
    dget (dset d k v) k' = dget d k' := by
  induction d with
  | nil => simp [dget, dset, h]
  | cons p rest ih =>
    by_cases hp : p.1 == k
    · have hpk : p.1 = k := by simpa using hp
      simp [dset, dget, hp, h, hpk]
    · simp [dset, dget, hp, ih]

/-- ASCII lowercase of one character (`str.lower` restricted to the ASCII
names the metadata uses). -/
def lowerChar (c : Char) : Char :=
  if 65 ≤ c.toNat ∧ c.toNat ≤ 90 then Char.ofNat (c.toNat + 32) else c

/-- `str.lower()`. -/
def strLower (s : String) : String := String.mk (s.data.map lowerChar)

/-- Word character for the regex `\b` boundary (`[0-9A-Za-z_]`; the
metadata version strings are ASCII). -/
def isWordChar (c : Char) : Bool :=
  isDigitChar c || decide (65 ≤ c.toNat ∧ c.toNat ≤ 90) ||
    decide (97 ≤ c.toNat ∧ c.toNat ≤ 122) || decide (c = '_')

/-- `\b` holds before the match: start of string or a non-word character. -/
def boundaryBefore : Option Char → Bool
  | Option.none => true
  | some c => !isWordChar c

/-- `\b` holds after the match: end of string or a non-word character. -/
def boundaryAfter : List Char → Bool
  | [] => true
  | c :: _ => !isWordChar c

/-- Try `\b\d+\.\d+\.\d+\b` anchored at the current position (`prev` is the
character before it).  `\d+` is taken greedily; because digits and `.` are
disjoint and shortening a digit run puts a digit after a digit (never a
boundary), the greedy scan agrees with backtracking `re.search`. -/
def matchTripleAt (prev : Option Char) (cs : List Char) : Option (List Char) :=
  if boundaryBefore prev then
    match cs.span isDigitChar with
    | ([], _) => Option.none
    | (d1, r1) =>
      match r1 with
      | '.' :: r2 =>
        match r2.span isDigitChar with
        | ([], _) => Option.none
        | (d2, r3) =>
          match r3 with
          | '.' :: r4 =>
            match r4.span isDigitChar with
            | ([], _) => Option.none
            | (d3, r5) =>
              if boundaryAfter r5 then
                some (d1 ++ ['.'] ++ d2 ++ ['.'] ++ d3)
              else Option.none
          | _ => Option.none
      | _ => Option.none
  else Option.none

/-- Scan left to right for the first position where
`\b\d+\.\d+\.\d+\b` matches, as `re.search` does. -/
def searchTriple : Option Char → List Char → Option (List Char)
  | _, [] => Option.none
  | prev, c :: rest =>
    match matchTripleAt prev (c :: rest) with
    | some m => some m
    | Option.none => searchTriple (some c) rest

/-- `re.search(r"\b\d+\.\d+\.\d+\b", s)`, returning `group(0)`. -/
def searchVersionNum (s : String) : Option String :=
  (searchTriple Option.none s.data).map (fun cs => String.mk cs)

/-- An HTTP response: success flag and (when relevant) the JSON body. -/
structure HttpResponse where
  ok : Bool
  body : JDict
deriving DecidableEq, Repr

/-- `cladetime.sequence._get_ncov_metadata` (the shipped two-argument
version): an unsuccessful response yields the empty dict; otherwise the
fetched JSON object is returned after (1) setting
`nextclade_dataset_name_full` to the fixed full name when the fetched
`nextclade_dataset_name` lowercases to "sars-cov-2" and (2), when
`nextclade_version` is a truthy (non-empty) value, setting
`nextclade_version_num` to the first word-bounded `d.d.d` match in it, or
null when there is none.  Returns `none` where Python would raise on a
non-string value being lowercased. -/
def get_ncov_metadata (resp : HttpResponse) : Option JDict :=
  if !resp.ok then some []
  else
    let m := resp.body
    match (match dget m "nextclade_dataset_name" with
           | Option.none => some ""
           | some (.s v) => some v
           | some .null => Option.none) with
    | Option.none => Option.none
    | some nameVal =>
      let m1 :=
        if strLower nameVal == "sars-cov-2" then
          dset m "nextclade_dataset_name_full"
            (.s "nextstrain/sars-cov-2/wuhan-hu-1/orfs")
        else m
      match dget m1 "nextclade_version" with
      | some (.s v) =>
        if v == "" then some m1
        else
          some (dset m1 "nextclade_version_num"
            (match searchVersionNum v with
             | some num => .s num
             | Option.none => .null))
      | _ => some m1

/-- A plain (unanchored) `digits.digits.digits` occurrence at the head of
the list; this follows the claim wording, which reads the version number
as the first such substring with no word-boundary requirement. -/
def plainTripleAt (cs : List Char) : Bool :=
  match cs.span isDigitChar with
  | ([], _) => false
  | (_, r1) =>
    match r1 with
    | '.' :: r2 =>
      match r2.span isDigitChar with
      | ([], _) => false
      | (_, r3) =>
        match r3 with
        | '.' :: r4 =>
          match r4.span isDigitChar with
          | ([], _) => false
          | (_, _) => true
        | _ => false
    | _ => false

/-- Whether a plain `digits.digits.digits` substring occurs anywhere;
follows the claim wording, to be compared with the code, which anchors the
pattern with `\b`. -/
def hasPlainTriple (s : String) : Bool :=
  go s.data
where
  go : List Char → Bool
    | [] => false
    | c :: rest => plainTripleAt (c :: rest) || go rest

theorem dget_dset_ne' (d : JDict) (k k' : String) (v : JVal) (h : k ≠ k') :
    dget (dset d k v) k' = dget d k' :=
  dget_dset_ne d k k' v (by simpa using h)

/-- Counterexample to C10 as stated: on a successful response whose body
already carries `nextclade_dataset_name_full` and `nextclade_version_num`,
`_get_ncov_metadata` overwrites both fetched fields; moreover, for
`nextclade_version = "v3.8.2"` it stores null even though a plain
`digits.digits.digits` substring ("3.8.2") exists, because the code
anchors the pattern with `\b`. -/
theorem ncov_metadata_overwrites_fetched_fields :
    get_ncov_metadata
        ⟨true, [("nextclade_dataset_name", .s "SARS-CoV-2"),
                ("nextclade_dataset_name_full", .s "old"),
                ("nextclade_version", .s "v3.8.2"),
                ("nextclade_version_num", .s "9.9.9")]⟩ =
      some [("nextclade_dataset_name", .s "SARS-CoV-2"),
            ("nextclade_dataset_name_full",
              .s "nextstrain/sars-cov-2/wuhan-hu-1/orfs"),
            ("nextclade_version", .s "v3.8.2"),
            ("nextclade_version_num", .null)] ∧
    (JVal.s "nextstrain/sars-cov-2/wuhan-hu-1/orfs" ≠ JVal.s "old") ∧
    (JVal.null ≠ JVal.s "9.9.9") ∧
    hasPlainTriple "v3.8.2" = true ∧
    searchVersionNum "v3.8.2" = Option.none := by
  refine ⟨?_, by decide, by decide, by decide, by decide⟩
  decide

/-- C10 amended: an unsuccessful fetch returns the empty record without
raising; a successful fetch returns the fetched object with every field
other than `nextclade_dataset_name_full` and `nextclade_version_num`
unchanged, where `nextclade_dataset_name_full` is set — added, or
overwritten when fetched — to the fixed full name exactly when the fetched
`nextclade_dataset_name` equals "sars-cov-2" case-insensitively, and
`nextclade_version_num` is set exactly when `nextclade_version` is present
and non-empty, to the first word-boundary-anchored `d.d.d` match of it, or
null when no such match exists. -/
theorem ncov_metadata_frame (resp : HttpResponse)
    (hname : ∀ v, dget resp.body "nextclade_dataset_name" = some v →
      ∃ w, v = JVal.s w) :
    (resp.ok = false → get_ncov_metadata resp = some []) ∧
    (resp.ok = true → ∃ out, get_ncov_metadata resp = some out ∧
      (∀ k, k ≠ "nextclade_dataset_name_full" →
        k ≠ "nextclade_version_num" → dget out k = dget resp.body k) ∧
      dget out "nextclade_dataset_name_full" =
        (if strLower (match dget resp.body "nextclade_dataset_name" with
                      | some (.s v) => v
                      | _ => "") == "sars-cov-2" then
          some (.s "nextstrain/sars-cov-2/wuhan-hu-1/orfs")
        else dget resp.body "nextclade_dataset_name_full") ∧
      dget out "nextclade_version_num" =
        (match dget resp.body "nextclade_version" with
         | some (.s v) =>
           if v = "" then dget resp.body "nextclade_version_num"
           else some (match searchVersionNum v with
                      | some num => JVal.s num
                      | Option.none => JVal.null)
         | _ => dget resp.body "nextclade_version_num")) := by
  constructor
  · intro h
    simp [get_ncov_metadata, h]
  · intro hok
    obtain ⟨nameVal, hnv1, hnv2⟩ :
        ∃ nameVal, (match dget resp.body "nextclade_dataset_name" with
            | Option.none => some ""
            | some (.s v) => some v
            | some .null => Option.none) = some nameVal ∧
          (match dget resp.body "nextclade_dataset_name" with
            | some (.s v) => v
            | _ => "") = nameVal := by
      cases hn : dget resp.body "nextclade_dataset_name" with
      | none => exact ⟨"", by simp, by simp⟩
      | some jv =>
        cases jv with
        | s v => exact ⟨v, by simp, by simp⟩
        | null =>
          obtain ⟨w, hw⟩ := hname _ hn
          cases hw
    set b := resp.body with hb
    set m1 : JDict :=
      if strLower nameVal == "sars-cov-2" then
        dset b "nextclade_dataset_name_full"
          (.s "nextstrain/sars-cov-2/wuhan-hu-1/orfs")
      else b with hm1
    have f1 : ∀ k, k ≠ "nextclade_dataset_name_full" → dget m1 k = dget b k := by
      intro k hk
      rw [hm1]
      by_cases hc : strLower nameVal == "sars-cov-2"
      · rw [if_pos hc, dget_dset_ne' _ _ _ _ (fun h => hk h.symm)]
      · rw [if_neg hc]
    have f2 : dget m1 "nextclade_dataset_name_full" =
        (if strLower nameVal == "sars-cov-2" then
          some (.s "nextstrain/sars-cov-2/wuhan-hu-1/orfs")
        else dget b "nextclade_dataset_name_full") := by
      rw [hm1]
      by_cases hc : strLower nameVal == "sars-cov-2"
      · rw [if_pos hc, if_pos hc, dget_dset_self]
      · rw [if_neg hc, if_neg hc]
    have f3 : dget m1 "nextclade_version" = dget b "nextclade_version" :=
      f1 _ (by decide)
    have f4 : dget m1 "nextclade_version_num" = dget b "nextclade_version_num" :=
      f1 _ (by decide)
    have hrun0 : get_ncov_metadata resp =
        (match dget b "nextclade_version" with
          | some (.s v) =>
            if v == "" then some m1
            else some (dset m1 "nextclade_version_num"
              (match searchVersionNum v with
               | some num => .s num
               | Option.none => .null))
          | _ => some m1) := by
      rw [get_ncov_metadata, hok]
      simp only [Bool.not_true, Bool.false_eq_true, if_false, ← hb, hnv1, ← hm1, f3]
    cases hv : dget b "nextclade_version" with
    | none =>
      rw [hv] at hrun0
      have hrun1 : get_ncov_metadata resp = some m1 := hrun0
      refine ⟨m1, hrun1, fun k hk1 _ => f1 k hk1, ?_, ?_⟩
      · rw [hnv2]
        exact f2
      · exact f4
    | some jv =>
      cases jv with
      | null =>
        rw [hv] at hrun0
        have hrun1 : get_ncov_metadata resp = some m1 := hrun0
        refine ⟨m1, hrun1, fun k hk1 _ => f1 k hk1, ?_, ?_⟩
        · rw [hnv2]
          exact f2
        · exact f4
      | s v =>
        rw [hv] at hrun0
        have hrun1 : get_ncov_metadata resp =
            (if (v == "") = true then some m1
             else some (dset m1 "nextclade_version_num"
               (match searchVersionNum v with
                | some num => JVal.s num
                | Option.none => JVal.null))) := hrun0
        by_cases hve : (v == "") = true
        · have hve' : v = "" := by simpa using hve
          rw [if_pos hve] at hrun1
          refine ⟨m1, hrun1, fun k hk1 _ => f1 k hk1, ?_, ?_⟩
          · rw [hnv2]
            exact f2
          · simp [hve', f4]
        · have hve' : ¬ v = "" := by simpa using hve
          rw [if_neg hve] at hrun1
          refine ⟨_, hrun1, ?_, ?_, ?_⟩
          · intro k hk1 hk2
            rw [dget_dset_ne' _ _ _ _ (fun h => hk2 h.symm)]
            exact f1 k hk1
          · rw [dget_dset_ne' _ _ _ _ (by decide), hnv2]
            exact f2
          · simp [dget_dset_self, hve']

/-- Witness for the amended C10: a body carrying `nextclade_dataset_name =
"sars-cov-2"` and `nextclade_version = "nextclade 3.8.2"` gains the full
dataset name and the parsed version number "3.8.2", other fields intact. -/
theorem ncov_metadata_frame_witness :
    (∀ v, dget [("nextclade_dataset_name", JVal.s "sars-cov-2"),
                ("nextclade_version", JVal.s "nextclade 3.8.2"),
                ("other", JVal.s "x")] "nextclade_dataset_name" = some v →
      ∃ w, v = JVal.s w) ∧
    ∃ out, get_ncov_metadata
        ⟨true, [("nextclade_dataset_name", JVal.s "sars-cov-2"),
                ("nextclade_version", JVal.s "nextclade 3.8.2"),
                ("other", JVal.s "x")]⟩ = some out ∧
      (∀ k, k ≠ "nextclade_dataset_name_full" →
        k ≠ "nextclade_version_num" →
        dget out k = dget [("nextclade_dataset_name", JVal.s "sars-cov-2"),
                           ("nextclade_version", JVal.s "nextclade 3.8.2"),
                           ("other", JVal.s "x")] k) ∧
      dget out "nextclade_dataset_name_full" =
        (if strLower (match dget [("nextclade_dataset_name", JVal.s "sars-cov-2"),
                                  ("nextclade_version", JVal.s "nextclade 3.8.2"),
                                  ("other", JVal.s "x")] "nextclade_dataset_name" with
                      | some (.s v) => v
                      | _ => "") == "sars-cov-2" then
          some (.s "nextstrain/sars-cov-2/wuhan-hu-1/orfs")
        else dget [("nextclade_dataset_name", JVal.s "sars-cov-2"),
                   ("nextclade_version", JVal.s "nextclade 3.8.2"),
                   ("other", JVal.s "x")] "nextclade_dataset_name_full") ∧
      dget out "nextclade_version_num" =
        (match dget [("nextclade_dataset_name", JVal.s "sars-cov-2"),
                     ("nextclade_version", JVal.s "nextclade 3.8.2"),
                     ("other", JVal.s "x")] "nextclade_version" with
         | some (.s v) =>
           if v = "" then
             dget [("nextclade_dataset_name", JVal.s "sars-cov-2"),
                   ("nextclade_version", JVal.s "nextclade 3.8.2"),
                   ("other", JVal.s "x")] "nextclade_version_num"
           else some (match searchVersionNum v with
                      | some num => JVal.s num
                      | Option.none => JVal.null)
         | _ => dget [("nextclade_dataset_name", JVal.s "sars-cov-2"),
                      ("nextclade_version", JVal.s "nextclade 3.8.2"),
                      ("other", JVal.s "x")] "nextclade_version_num") :=
  ⟨fun v h => ⟨"sars-cov-2", by
      have hd : dget [("nextclade_dataset_name", JVal.s "sars-cov-2"),
          ("nextclade_version", JVal.s "nextclade 3.8.2"),
          ("other", JVal.s "x")] "nextclade_dataset_name" =
            some (JVal.s "sars-cov-2") := by decide
      rw [hd] at h
      exact (Option.some.inj h).symm⟩,
    (ncov_metadata_frame
      ⟨true, [("nextclade_dataset_name", JVal.s "sars-cov-2"),
              ("nextclade_version", JVal.s "nextclade 3.8.2"),
              ("other", JVal.s "x")]⟩
      (fun v h => ⟨"sars-cov-2", by
        have hd : dget [("nextclade_dataset_name", JVal.s "sars-cov-2"),
            ("nextclade_version", JVal.s "nextclade 3.8.2"),
            ("other", JVal.s "x")] "nextclade_dataset_name" =
              some (JVal.s "sars-cov-2") := by decide
        rw [hd] at h
        exact (Option.some.inj h).symm⟩)).2 rfl⟩

/-- Civil day number of a UTC date (era-based formula); archive documents
are named by calendar date, embedded here as this day index, so stepping
back one calendar day is subtracting one. -/
def toDayNumber (t : PyDateTime) : Nat :=
  let y := if t.month ≤ 2 then t.year - 1 else t.year
  let era := y / 400
  let yoe := y % 400
  let mp := if 2 < t.month then t.month - 3 else t.month + 9
  let doy := (153 * mp + 2) / 5 + t.day - 1
  let doe := yoe * 365 + yoe / 4 - yoe / 100 + doy
  era * 146097 + doe

/-- Day number of 2024-10-09, the first date of the variant-nowcast-hub
archive series. -/
def hubStartDay : Nat := toDayNumber ⟨2024, 10, 9, 0, 0, 0⟩

/-- The archive: for each day number, `none` when no document was
published that day, `some d` for a published document whose `meta.ncov`
sub-record is `d` (`some Option.none` models a malformed document missing
the sub-record). -/
abbrev HubArchive := Nat → Option (Option JDict)

/-- The failures of the archive fallback resolver. -/
inductive HubError where
  | notApplicable
  | noArchiveFound
  | keyError
deriving DecidableEq, Repr

/-- The bounded backward probe of the archive: try the named day, then one
day earlier, until the fuel (the 31-probe window covering 0..30 days back)
is exhausted. -/
def hubSearch (archive : HubArchive) : Nat → Nat → Except HubError JDict
  | _, 0 => .error .noArchiveFound
  | day, fuel + 1 =>
    match archive day with
    | some (some ncov) => .ok ncov
    | some Option.none => .error .keyError
    | Option.none => hubSearch archive (day - 1) fuel

/-- Modelled from the spec: `_get_metadata_from_hub` is imported by the
unit tests and patched on `cladetime.sequence`, but its implementation is
absent from the shipped sources.  Per spec §4.2 (and the tests): dates
before the archive series start (2024-10-09) fail as "archive not
applicable" without probing; otherwise the resolver probes the document
named by the exact date and steps backward one day at a time within a
30-day lookback, returning the `meta.ncov` sub-record of the first
document found, raising a structural (KeyError) failure on a document
missing that sub-record, and "no archive found" when the window is
exhausted. -/
def get_metadata_from_hub (archive : HubArchive) (asOfDay : Nat) :
    Except HubError JDict :=
  if asOfDay < hubStartDay then .error .notApplicable
  else hubSearch archive asOfDay 31

/-- Outcome of reading `CladeTime.ncov_metadata`. -/
inductive NcovReadResult where
  | metadata (d : JDict)
  | failure (e : HubError)
  | typeError
deriving DecidableEq, Repr

/-- The `CladeTime.ncov_metadata` getter together with the as_of-aware
`_get_ncov_metadata` dispatch (the dispatch is modelled from the spec:
`cladetime.py` passes `as_of_date=self.sequence_as_of`, and §4.3 says the
empty-URL sentinel routes the read to the archive resolver keyed by
`sequence_as_of`, propagating its failure, while a `None` URL yields the
empty record and a real URL is fetched as in `_get_ncov_metadata`). -/
def ncov_metadata_read (urlNcov : Option String) (seqAsOf : PyDateTime)
    (http : HttpResponse) (archive : HubArchive) : NcovReadResult :=
  match urlNcov with
  | Option.none => .metadata []
  | some url =>
    if url == "" then
      match get_metadata_from_hub archive (toDayNumber seqAsOf) with
      | .ok d => .metadata d
      | .error e => .failure e
    else
      match get_ncov_metadata http with
      | some d => .metadata d
      | Option.none => .typeError

theorem hubSearch_found (archive : HubArchive) (dpub : Nat)
    (doc : Option JDict) (hpub : archive dpub = some doc) :
    ∀ fuel day, dpub ≤ day → day < dpub + fuel →
      (∀ e, dpub < e → e ≤ day → archive e = Option.none) →
      hubSearch archive day fuel =
        (match doc with
         | some ncov => .ok ncov
         | Option.none => .error .keyError) := by
  intro fuel
  induction fuel with
  | zero =>
    intro day h1 h2 _
    omega
  | succ f ih =>
    intro day h1 h2 hnone
    by_cases hd : day = dpub
    · subst hd
      cases doc with
      | none => simp [hubSearch, hpub]
      | some ncov => simp [hubSearch, hpub]
    · have h0 : archive day = Option.none := hnone day (by omega) le_rfl
      simp only [hubSearch, h0]
      exact ih (day - 1) (by omega) (by omega)
        (fun e he1 he2 => hnone e he1 (by omega))

theorem hubSearch_exhausted (archive : HubArchive) :
    ∀ fuel day, (∀ e, day < e + fuel → e ≤ day → archive e = Option.none) →
      hubSearch archive day fuel = .error .noArchiveFound := by
  intro fuel
  induction fuel with
  | zero => intro day _; rfl
  | succ f ih =>
    intro day h
    have h0 : archive day = Option.none := h day (by omega) le_rfl
    simp only [hubSearch, h0]
    exact ih (day - 1) (fun e he1 he2 => h e (by omega) (by omega))

/-- C3: with the empty-URL sentinel, reading `ncov_metadata` resolves from
the archive keyed by `sequence_as_of`; the archive resolver returns the
metadata of the newest document dated `<=` the as_of day within the 30-day
lookback, fails with "no archive found" when the window is exhausted, and
fails with the distinct "archive not applicable" error — independent of
the archive contents, hence without probing — when the day predates the
series start. -/
theorem ncov_metadata_archive_fallback :
    (∀ (a1 a2 : HubArchive) (d : Nat), d < hubStartDay →
      get_metadata_from_hub a1 d = .error .notApplicable ∧
      get_metadata_from_hub a1 d = get_metadata_from_hub a2 d) ∧
    (∀ (archive : HubArchive) (d dpub : Nat) (ncov : JDict),
      hubStartDay ≤ d → dpub ≤ d → d ≤ dpub + 30 →
      archive dpub = some (some ncov) →
      (∀ e, dpub < e → e ≤ d → archive e = Option.none) →
      get_metadata_from_hub archive d = .ok ncov) ∧
    (∀ (archive : HubArchive) (d : Nat), hubStartDay ≤ d →
      (∀ e, d ≤ e + 30 → e ≤ d → archive e = Option.none) →
      get_metadata_from_hub archive d = .error .noArchiveFound) ∧
    (∀ (seqAsOf : PyDateTime) (http : HttpResponse) (archive : HubArchive),
      (∀ ncov,
        get_metadata_from_hub archive (toDayNumber seqAsOf) = .ok ncov →
        ncov_metadata_read (some "") seqAsOf http archive = .metadata ncov) ∧
      (∀ e, get_metadata_from_hub archive (toDayNumber seqAsOf) = .error e →
        ncov_metadata_read (some "") seqAsOf http archive = .failure e)) := by
  refine ⟨?_, ?_, ?_, ?_⟩
  · intro a1 a2 d h
    constructor
    · simp [get_metadata_from_hub, h]
    · simp [get_metadata_from_hub, h]
  · intro archive d dpub ncov hd hle hwin hpub hnone
    have h1 : ¬ d < hubStartDay := by omega
    rw [get_metadata_from_hub, if_neg h1]
    exact hubSearch_found archive dpub (some ncov) hpub 31 d hle (by omega) hnone
  · intro archive d hd hall
    have h1 : ¬ d < hubStartDay := by omega
    rw [get_metadata_from_hub, if_neg h1]
    exact hubSearch_exhausted archive 31 d (fun e he1 he2 => hall e (by omega) he2)
  · intro seqAsOf http archive
    constructor
    · intro ncov h
      simp [ncov_metadata_read, h]
    · intro e h
      simp [ncov_metadata_read, h]

/-- Witness for C3: an archive publishing only on the series start day is
found from three days later, via the backward probe. -/
theorem ncov_metadata_archive_fallback_witness :
    get_metadata_from_hub
        (fun n => if n = hubStartDay then
          some (some [("nextclade_dataset_version",
            JVal.s "2024-09-25--21-50-30Z")])
        else Option.none)
        (hubStartDay + 3) =
      .ok [("nextclade_dataset_version", JVal.s "2024-09-25--21-50-30Z")] :=
  ncov_metadata_archive_fallback.2.1
    (fun n => if n = hubStartDay then
      some (some [("nextclade_dataset_version",
        JVal.s "2024-09-25--21-50-30Z")])
    else Option.none)
    (hubStartDay + 3) hubStartDay
    [("nextclade_dataset_version", JVal.s "2024-09-25--21-50-30Z")]
    (by omega) (by omega) (by omega) (by simp)
    (fun e he1 he2 => by
      have hne : e ≠ hubStartDay := by omega
      simp [hne])

/-! The clade-assignment pipeline of `CladeTime.assign_clades`.
Tabular data is embedded as lists of rows; the external collaborators
(store download, dataset fetch, classifier container) are oracles, with
the classifier TSV output supplied as a list of rows. -/

/-- One metadata row: column name to cell value. -/
abbrev Row := List (String × String)

/-- Cell lookup in a row (`""` for an absent column, which the pipeline
never reads thanks to the schema checks). -/
def rowGet (r : Row) (c : String) : String :=
  match r with
  | [] => ""
  | p :: rest => if p.1 == c then p.2 else rowGet rest c

/-- A Polars frame: column schema plus rows. -/
structure PTable where
  schema : List String
  rows : List Row
deriving DecidableEq, Repr

/-- `Config.nextstrain_standard_metadata_fields`. -/
def nextstrain_standard_metadata_fields : List String :=
  ["strain", "virus", "gisaid_epi_isl", "genbank_accession", "date",
   "region", "country", "division", "location", "region_exposure",
   "country_exposure", "division_exposure", "segment", "length", "host",
   "age", "sex", "originating_lab", "submitting_lab", "authors", "url",
   "title", "date_submitted"]

/-- `Config.clade_assignment_warning_threshold`. -/
def clade_assignment_warning_threshold : Nat := 10000

/-- Step 1 of `assign_clades`: drop every column not in the standard
metadata field list (row count unchanged). -/
def dropNonStandard (t : PTable) : PTable :=
  ⟨t.schema.filter (fun c => decide (c ∈ nextstrain_standard_metadata_fields)),
    t.rows⟩

/-- `cladetime.sequence.get_metadata_ids`: the deduplicated strain column
as a set (modelled as a first-occurrence dedup list); the
`ColumnNotFoundError` raised when the strain column is missing is caught
and yields the empty set. -/
def get_metadata_ids (t : PTable) : List String :=
  if "strain" ∈ t.schema then
    (t.rows.map (fun r => rowGet r "strain")).dedup
  else []

/-- One row of the Nextclade TSV output (`seqName` plus the
`clade_nextstrain` label, null when the classifier assigned none). -/
structure ARow where
  seqName : String
  clade_nextstrain : Option String
deriving DecidableEq, Repr

/-- The Polars left join of `assign_clades`
(`left_on="strain", right_on="seqName", how="left"`): one output row per
match, and a single null-extended row when unmatched. -/
def leftJoin (rows : List Row) (assigned : List ARow) :
    List (Row × Option ARow) :=
  rows.flatMap (fun r =>
    let ms := assigned.filter (fun a => a.seqName == rowGet r "strain")
    if ms.isEmpty then [(r, Option.none)]
    else ms.map (fun a => (r, some a)))

/-- `group_by(cols).agg(len())`: one output pair per distinct key, with
the number of rows carrying that key. -/
def groupCounts {κ ρ : Type} [DecidableEq κ] [DecidableEq ρ] (key : ρ → κ)
    (rows : List ρ) : List (κ × Nat) :=
  (rows.map key).dedup.map
    (fun k => (k, (rows.filter (fun r => decide (key r = k))).length))

/-- The group_by key used by `assign_clades` when summarizing:
location, date, host, clade_nextstrain, country. -/
structure SummaryKey where
  location : String
  date : String
  host : String
  clade_nextstrain : Option String
  country : String
deriving DecidableEq, Repr

/-- Key extraction for the summary grouping. -/
def summaryKey (p : Row × Option ARow) : SummaryKey :=
  ⟨rowGet p.1 "location", rowGet p.1 "date", rowGet p.1 "host",
    p.2.bind ARow.clade_nextstrain, rowGet p.1 "country"⟩

/-- `cladetime.sequence.summarize_clades` applied to the joined detail
frame with the `assign_clades` grouping columns. -/
def summarize_clades (detail : List (Row × Option ARow)) :
    List (SummaryKey × Nat) :=
  groupCounts summaryKey detail

/-- The provenance record assembled at the end of `assign_clades`. -/
structure ProvRecord where
  sequences_to_assign : Nat
  sequences_assigned : Nat
  sequence_as_of : PyDateTime
  tree_as_of : PyDateTime
  nextclade_dataset_version : Option JVal
  nextclade_dataset_name : Option JVal
  nextclade_version_num : Option JVal
  assignment_as_of : String
deriving DecidableEq, Repr

/-- The value returned by `assign_clades` (`meta = Option.none` models the
empty provenance dict of the short-circuit path). -/
structure Clade where
  meta : Option ProvRecord
  detail : List (Row × Option ARow)
  summary : List (SummaryKey × Nat)
deriving DecidableEq, Repr

/-- The two `CladeTimeSequenceWarning`s `assign_clades` can emit. -/
inductive CTWarning where
  | emptySequenceWarning
  | largeSequenceWarning
deriving DecidableEq, Repr

/-- The external pipeline steps of `assign_clades`; the returned trace
records which ran. -/
inductive PipelineStep where
  | treeResolution
  | sequenceDownloadFilter
  | datasetFetch
  | classifierRun
deriving DecidableEq, Repr

/-- `CladeTime.assign_clades`: drop non-standard columns, derive the
strain ID set; when it is empty, warn and return the empty `Clade` without
running any further step; otherwise warn on large inputs, run the external
steps (tree resolution, download/filter, dataset fetch, classifier — their
effects supplied as the `treeNcovMetadata` and `classifierOutput`
oracles), left-join the classifier TSV onto the metadata, summarize, and
assemble the provenance record. -/
def assign_clades (sequence_as_of tree_as_of : PyDateTime)
    (assignment_date : String) (treeNcovMetadata : JDict)
    (sequence_metadata : PTable) (classifierOutput : List ARow) :
    Clade × List CTWarning × List PipelineStep :=
  let dropped := dropNonStandard sequence_metadata
  let ids := get_metadata_ids dropped
  let sequence_count := ids.length
  if sequence_count = 0 then
    (⟨Option.none, [], []⟩, [.emptySequenceWarning], [])
  else
    let warns : List CTWarning :=
      if clade_assignment_warning_threshold < sequence_count then
        [.largeSequenceWarning]
      else []
    let assigned_count :=
      (classifierOutput.filter (fun a => a.clade_nextstrain.isSome)).length
    let detail := leftJoin dropped.rows classifierOutput
    let summary := summarize_clades detail
    let meta : ProvRecord :=
      ⟨sequence_count, assigned_count, sequence_as_of, tree_as_of,
        dget treeNcovMetadata "nextclade_dataset_version",
        dget treeNcovMetadata "nextclade_dataset_name",
        dget treeNcovMetadata "nextclade_version_num",
        assignment_date⟩
    (⟨some meta, detail, summary⟩, warns,
      [.treeResolution, .sequenceDownloadFilter, .datasetFetch,
        .classifierRun])

theorem filter_key_length_le_one (l : List ARow) (x : String)
    (h : (l.map ARow.seqName).Nodup) :
    (l.filter (fun a => a.seqName == x)).length ≤ 1 := by
  induction l with
  | nil => simp
  | cons a rest ih =>
    rw [List.map_cons, List.nodup_cons] at h
    cases hax : (a.seqName == x) with
    | false => simpa [List.filter_cons, hax] using ih h.2
    | true =>
      have hx : a.seqName = x := by simpa using hax
      have hrest : rest.filter (fun b => b.seqName == x) = [] := by
        rw [List.filter_eq_nil_iff]
        intro b hb hbx
        have hbx' : b.seqName = a.seqName := by
          rw [hx]
          simpa using hbx
        exact h.1 (hbx' ▸ List.mem_map_of_mem ARow.seqName hb)
      simp [List.filter_cons, hax, hrest]

theorem leftJoin_length (rows : List Row) (assigned : List ARow)
    (h : (assigned.map ARow.seqName).Nodup) :
    (leftJoin rows assigned).length = rows.length := by
  induction rows with
  | nil => rfl
  | cons r rest ih =>
    simp only [leftJoin, List.flatMap_cons, List.length_append,
      List.length_cons] at ih ⊢
    have hle := filter_key_length_le_one assigned (rowGet r "strain") h
    by_cases he :
        (assigned.filter (fun a => a.seqName == rowGet r "strain")).isEmpty
    · rw [if_pos he]
      simp only [List.length_singleton]
      omega
    · rw [if_neg he]
      rw [List.isEmpty_iff] at he
      have hpos :
          (assigned.filter (fun a => a.seqName == rowGet r "strain")).length
            ≠ 0 := by
        intro h0
        exact he (List.length_eq_zero.mp h0)
      simp only [List.length_map]
      omega

theorem length_filter_add_length_filter_not {ρ : Type} (l : List ρ)
    (p : ρ → Bool) :
    (l.filter p).length + (l.filter (fun a => !(p a))).length = l.length := by
  induction l with
  | nil => rfl
  | cons a rest ih =>
    cases hp : p a <;> simp [List.filter_cons, hp] <;> omega

theorem filter_filter_ne {κ ρ : Type} [DecidableEq κ] (key : ρ → κ)
    (j k : κ) (hjk : j ≠ k) (rows : List ρ) :
    (rows.filter (fun r => !(decide (key r = k)))).filter
      (fun r => decide (key r = j))
    = rows.filter (fun r => decide (key r = j)) := by
  induction rows with
  | nil => rfl
  | cons r rs ih =>
    by_cases h2 : key r = k
    · have h1 : ¬ key r = j := by
        rw [h2]
        exact fun hh => hjk hh.symm
      simp [List.filter_cons, h1, h2, ih, hjk, Ne.symm hjk]
    · by_cases h1 : key r = j
      · simp [List.filter_cons, h1, h2, ih, hjk, Ne.symm hjk]
      · simp [List.filter_cons, h1, h2, ih, hjk, Ne.symm hjk]

theorem sum_filter_lengths {κ ρ : Type} [DecidableEq κ] (key : ρ → κ) :
    ∀ (ks : List κ), ks.Nodup → ∀ (rows : List ρ),
      (∀ r ∈ rows, key r ∈ ks) →
      (ks.map
        (fun k => (rows.filter (fun r => decide (key r = k))).length)).sum
        = rows.length := by
  intro ks
  induction ks with
  | nil =>
    intro _ rows hcov
    cases rows with
    | nil => rfl
    | cons r rest =>
      exact absurd (hcov r (List.mem_cons_self r rest)) (List.not_mem_nil _)
  | cons k ks ih =>
    intro hnd rows hcov
    rw [List.nodup_cons] at hnd
    have hrec : (ks.map (fun j =>
        ((rows.filter (fun r => !(decide (key r = k)))).filter
          (fun r => decide (key r = j))).length)).sum
        = (rows.filter (fun r => !(decide (key r = k)))).length := by
      apply ih hnd.2
      intro r hr
      have hr1 := List.mem_filter.mp hr
      have hne : ¬ key r = k := by simpa using hr1.2
      rcases List.mem_cons.mp (hcov r hr1.1) with h | h
      · exact absurd h hne
      · exact h
    have hmapeq : ks.map (fun j =>
          ((rows.filter (fun r => !(decide (key r = k)))).filter
            (fun r => decide (key r = j))).length)
        = ks.map (fun j =>
          (rows.filter (fun r => decide (key r = j))).length) := by
      apply List.map_congr_left
      intro j hj
      rw [filter_filter_ne key j k (fun hjeq => hnd.1 (hjeq ▸ hj)) rows]
    rw [hmapeq] at hrec
    have hsplit := length_filter_add_length_filter_not rows
      (fun r => decide (key r = k))
    rw [List.map_cons, List.sum_cons, hrec]
    omega

theorem groupCounts_sum {κ ρ : Type} [DecidableEq κ] [DecidableEq ρ]
    (key : ρ → κ) (rows : List ρ) :
    ((groupCounts key rows).map Prod.snd).sum = rows.length := by
  rw [groupCounts, List.map_map]
  have hcomp : (Prod.snd ∘ fun k =>
      (k, (rows.filter (fun r => decide (key r = k))).length))
      = fun k => (rows.filter (fun r => decide (key r = k))).length := rfl
  rw [hcomp]
  apply sum_filter_lengths key _ (List.nodup_dedup _)
  intro r hr
  exact List.mem_dedup.mpr (List.mem_map_of_mem _ hr)

/-- Counterexample to C5 as stated: a one-row input joined against a
classifier TSV holding two rows for the same sequence name yields a detail
frame of two rows — the left join preserves cardinality only when the
right side has unique sequence names. -/
theorem left_join_duplicate_counterexample :
    ((assign_clades ⟨2025, 10, 15, 0, 0, 0⟩ ⟨2025, 10, 15, 0, 0, 0⟩
        "2025-10-20 12:00" [] ⟨["strain"], [[("strain", "A")]]⟩
        [⟨"A", some "24C"⟩, ⟨"A", some "24D"⟩]).1.detail.length = 2) ∧
    ([[("strain", "A")]] : List Row).length = 1 ∧ (2 : Nat) ≠ 1 := by
  refine ⟨?_, by decide, by decide⟩
  decide

/-- C5 amended: when the derived ID set is non-empty and the classifier
output carries at most one row per sequence name (`seqName` values
pairwise distinct), the detail frame of `assign_clades` has exactly as
many rows as the input metadata; and unconditionally the summary counts
sum to the number of detail rows. -/
theorem assign_clades_invariants (sequence_as_of tree_as_of : PyDateTime)
    (assignment_date : String) (ncov : JDict) (t : PTable)
    (cl : List ARow) :
    (get_metadata_ids (dropNonStandard t) ≠ [] →
      (cl.map ARow.seqName).Nodup →
      (assign_clades sequence_as_of tree_as_of assignment_date ncov t
        cl).1.detail.length = t.rows.length) ∧
    ((assign_clades sequence_as_of tree_as_of assignment_date ncov t
        cl).1.summary.map Prod.snd).sum
      = (assign_clades sequence_as_of tree_as_of assignment_date ncov t
        cl).1.detail.length := by
  constructor
  · intro hids hnd
    have hlen : ¬ (get_metadata_ids (dropNonStandard t)).length = 0 := by
      simpa [List.length_eq_zero] using hids
    simp only [assign_clades, if_neg hlen]
    exact leftJoin_length (dropNonStandard t).rows cl hnd
  · by_cases hlen : (get_metadata_ids (dropNonStandard t)).length = 0
    · simp [assign_clades, hlen]
    · simp only [assign_clades, if_neg hlen]
      exact groupCounts_sum summaryKey _

/-- Witness for the amended C5: two metadata rows, a classifier output
with distinct sequence names — detail has two rows and the summary counts
sum to two. -/
theorem assign_clades_invariants_witness :
    (get_metadata_ids (dropNonStandard
        ⟨["strain"], [[("strain", "A")], [("strain", "B")]]⟩) ≠ [] ∧
      ([ARow.mk "A" (some "24C")].map ARow.seqName).Nodup) ∧
    (assign_clades ⟨2025, 10, 15, 0, 0, 0⟩ ⟨2025, 10, 15, 0, 0, 0⟩
        "2025-10-20 12:00" [] ⟨["strain"], [[("strain", "A")], [("strain", "B")]]⟩
        [ARow.mk "A" (some "24C")]).1.detail.length
      = (⟨["strain"], [[("strain", "A")], [("strain", "B")]]⟩ : PTable).rows.length :=
  ⟨⟨by decide, by decide⟩,
    (assign_clades_invariants ⟨2025, 10, 15, 0, 0, 0⟩ ⟨2025, 10, 15, 0, 0, 0⟩
        "2025-10-20 12:00" [] ⟨["strain"], [[("strain", "A")], [("strain", "B")]]⟩
        [ARow.mk "A" (some "24C")]).1 (by decide) (by decide)⟩

/-- C6: whenever the derived sequence-ID set is empty — in particular when
the input lacks the strain column — `assign_clades` emits the sequence
warning and returns the empty result (empty provenance, detail and
summary) without raising and without running any later pipeline step. -/
theorem empty_ids_short_circuit (sequence_as_of tree_as_of : PyDateTime)
    (assignment_date : String) (ncov : JDict) (t : PTable)
    (cl : List ARow) :
    ("strain" ∉ t.schema → get_metadata_ids (dropNonStandard t) = []) ∧
    (get_metadata_ids (dropNonStandard t) = [] →
      assign_clades sequence_as_of tree_as_of assignment_date ncov t cl =
        (⟨Option.none, [], []⟩, [CTWarning.emptySequenceWarning], [])) := by
  constructor
  · intro h
    rw [get_metadata_ids, if_neg]
    intro hm
    exact h (List.mem_filter.mp hm).1
  · intro h
    have hlen : (get_metadata_ids (dropNonStandard t)).length = 0 := by
      rw [h]
      rfl
    simp [assign_clades, hlen]

/-- Witness for C6: a table without a strain column short-circuits with
the sequence warning, empty frames, empty provenance and no steps run. -/
theorem empty_ids_short_circuit_witness :
    get_metadata_ids (dropNonStandard
      ⟨["country"], [[("country", "USA")]]⟩) = [] ∧
    assign_clades ⟨2025, 10, 15, 0, 0, 0⟩ ⟨2025, 10, 15, 0, 0, 0⟩
        "2025-10-20 12:00" [] ⟨["country"], [[("country", "USA")]]⟩ [] =
      (⟨Option.none, [], []⟩, [CTWarning.emptySequenceWarning], []) :=
  ⟨by decide,
    (empty_ids_short_circuit ⟨2025, 10, 15, 0, 0, 0⟩ ⟨2025, 10, 15, 0, 0, 0⟩
        "2025-10-20 12:00" [] ⟨["country"], [[("country", "USA")]]⟩ []).2
      (by decide)⟩

/-! `Tree.tree` materialization (`cladetime/tree.py`). -/

/-- The exceptions reachable from `Tree.tree`:
`TreeNotAvailableError`, `NextcladeNotAvailableError`, and the
`AttributeError` raised when the incomplete-metadata branch evaluates
`self._clade_time` (an attribute `Tree` never defines) for its log call. -/
inductive TreeErr where
  | treeNotAvailable
  | nextcladeNotAvailable
  | attributeError
deriving DecidableEq, Repr

/-- The parsed `tree.json` document. -/
abbrev TreeDoc := JDict

/-- `metadata.get(key, "")` restricted to truthiness checks: a missing or
null value behaves as the empty (falsy) string. -/
def getStrDefault (d : JDict) (k : String) : String :=
  match dget d k with
  | some (.s v) => v
  | _ => ""

/-- `Tree._get_reference_tree`: requires a resolved metadata URL; reads
the three pipeline-metadata fields with empty defaults; when any is falsy
the error-logging call evaluates `self._clade_time` and Python raises
`AttributeError` (the intended `TreeNotAvailableError` on the next line is
unreachable); otherwise the Nextclade dataset is fetched — raising
`NextcladeNotAvailableError` when the Docker client or CLI invocation
fails (`nextcladeOk` oracle) — and the `tree.json` member is parsed
(`treeDoc` oracle). -/
def get_reference_tree (url_ncov_metadata : Option String) (ncov : JDict)
    (nextcladeOk : Bool) (treeDoc : TreeDoc) : Except TreeErr TreeDoc :=
  match url_ncov_metadata with
  | Option.none => .error .treeNotAvailable
  | some _ =>
    let vnum := getStrDefault ncov "nextclade_version_num"
    let name := getStrDefault ncov "nextclade_dataset_name"
    let ver := getStrDefault ncov "nextclade_dataset_version"
    if vnum == "" || name == "" || ver == "" then .error .attributeError
    else if nextcladeOk then .ok treeDoc
    else .error .nextcladeNotAvailable

/-- The `Tree.tree` property: when `_docker_installed()` reports Docker
missing, it returns the empty dict without raising; otherwise it
materializes the tree via `_get_reference_tree`, propagating its typed
failures. -/
def tree_property (docker_installed : Bool)
    (url_ncov_metadata : Option String) (ncov : JDict) (nextcladeOk : Bool)
    (treeDoc : TreeDoc) : Except TreeErr TreeDoc :=
  if docker_installed then
    get_reference_tree url_ncov_metadata ncov nextcladeOk treeDoc
  else .ok []

/-- Counterexample to C8 as stated: (i) with Docker reported missing —
the classifier execution environment absent — `Tree.tree` returns the
empty dict instead of propagating a classifier-unavailable failure; (ii)
with Docker present and an empty classifier-version field, the access
raises `AttributeError` (from the `self._clade_time` log argument), not
the claimed tree-not-available error. -/
theorem tree_property_counterexample :
    tree_property false (some "https://example/metadata_version.json")
        [("nextclade_version_num", JVal.s "3.8.2"),
         ("nextclade_dataset_name", JVal.s "sars-cov-2"),
         ("nextclade_dataset_version", JVal.s "2024-09-25--21-50-30Z")]
        false [("tree", JVal.s "t")] = .ok [] ∧
    ((Except.ok [] : Except TreeErr TreeDoc) ≠
      .error .nextcladeNotAvailable) ∧
    tree_property true (some "https://example/metadata_version.json")
        [("nextclade_version_num", JVal.s ""),
         ("nextclade_dataset_name", JVal.s "sars-cov-2"),
         ("nextclade_dataset_version", JVal.s "2024-09-25--21-50-30Z")]
        true [("tree", JVal.s "t")] = .error .attributeError ∧
    ((Except.error TreeErr.attributeError : Except TreeErr TreeDoc) ≠
      .error .treeNotAvailable) := by
  refine ⟨by decide, by decide, by decide, by decide⟩

/-- C8 amended: `Tree.tree` materializes the tree only when the Docker
check passes and all three pipeline-metadata fields are non-empty; with
Docker reported missing it returns the empty dict without raising; with an
unresolved metadata URL it fails tree-not-available; with any of the three
fields empty the failure surfaces as `AttributeError` (the logging slip)
rather than tree-not-available; and when the fields are complete a
Docker-client/CLI failure propagates as `NextcladeNotAvailableError`. -/
theorem tree_materialization (docker : Bool) (url : Option String)
    (ncov : JDict) (nextcladeOk : Bool) (doc : TreeDoc) :
    (docker = false →
      tree_property docker url ncov nextcladeOk doc = .ok []) ∧
    (docker = true → url = Option.none →
      tree_property docker url ncov nextcladeOk doc =
        .error .treeNotAvailable) ∧
    (docker = true → ∀ u, url = some u →
      (getStrDefault ncov "nextclade_version_num" = "" ∨
        getStrDefault ncov "nextclade_dataset_name" = "" ∨
        getStrDefault ncov "nextclade_dataset_version" = "") →
      tree_property docker url ncov nextcladeOk doc =
        .error .attributeError) ∧
    (docker = true → ∀ u, url = some u →
      getStrDefault ncov "nextclade_version_num" ≠ "" →
      getStrDefault ncov "nextclade_dataset_name" ≠ "" →
      getStrDefault ncov "nextclade_dataset_version" ≠ "" →
      tree_property docker url ncov nextcladeOk doc =
        (if nextcladeOk then .ok doc else .error .nextcladeNotAvailable)) := by
  refine ⟨?_, ?_, ?_, ?_⟩
  · intro h
    simp [tree_property, h]
  · intro hd hu
    simp [tree_property, get_reference_tree, hd, hu]
  · intro hd u hu hempty
    subst hd hu
    have hcond : ((getStrDefault ncov "nextclade_version_num" == "") ||
        (getStrDefault ncov "nextclade_dataset_name" == "") ||
        (getStrDefault ncov "nextclade_dataset_version" == "")) = true := by
      rcases hempty with h | h | h <;> simp [h]
    simp [tree_property, get_reference_tree, hcond]
  · intro hd u hu h1 h2 h3
    subst hd hu
    have hcond : ((getStrDefault ncov "nextclade_version_num" == "") ||
        (getStrDefault ncov "nextclade_dataset_name" == "") ||
        (getStrDefault ncov "nextclade_dataset_version" == "")) = false := by
      simp [h1, h2, h3]
    simp [tree_property, get_reference_tree, hcond]

/-- Witness for the amended C8: complete pipeline metadata with a failing
classifier invocation propagates `NextcladeNotAvailableError`. -/
theorem tree_materialization_witness :
    tree_property true (some "https://example/metadata_version.json")
        [("nextclade_version_num", JVal.s "3.8.2"),
         ("nextclade_dataset_name", JVal.s "sars-cov-2"),
         ("nextclade_dataset_version", JVal.s "2024-09-25--21-50-30Z")]
        false [("tree", JVal.s "t")] =
      (if false then Except.ok [("tree", JVal.s "t")]
       else Except.error TreeErr.nextcladeNotAvailable) :=
  (tree_materialization true (some "https://example/metadata_version.json")
      [("nextclade_version_num", JVal.s "3.8.2"),
       ("nextclade_dataset_name", JVal.s "sars-cov-2"),
       ("nextclade_dataset_version", JVal.s "2024-09-25--21-50-30Z")]
      false [("tree", JVal.s "t")]).2.2.2 rfl
    "https://example/metadata_version.json" rfl (by decide) (by decide)
    (by decide)

end Cladetime
